import Mathlib

/-!
Verification of the SFTT discover core (`discover/src/microtrends.py` and
`discover/src/embed_index.py`) against its natural-language specification.

Numeric model: Python floats are modelled as exact rationals (`ℚ`); the two
transcendental operations the code uses are modelled as follows:
`math.exp` by `Real.exp` (so signal values live in `ℝ`), and the scalar
square root inside `np.linalg.norm` by `ratSqrt`, a rational square root
that is exact on perfect squares.  Every concrete input evaluated in this
file keeps all norms at perfect squares, where `ratSqrt` agrees with the
real square root.  Fallible Python code (missing rows, unbound names) is
modelled with `Option`/`Except`.
-/

/-- Rational model of the scalar square root used by `np.linalg.norm`:
exact on perfect squares (all concrete inputs in this file have norms at
such values), `0` on non-positive input. -/
def ratSqrt (q : ℚ) : ℚ :=
  if q ≤ 0 then 0 else (Nat.sqrt q.num.toNat : ℚ) / (Nat.sqrt q.den : ℚ)

/-- Model of `np.dot` on vectors represented as rational lists. -/
def dotQ : List ℚ → List ℚ → ℚ
  | x :: xs, y :: ys => x * y + dotQ xs ys
  | _, _ => 0

/-- Componentwise vector addition (`self.sum_vector += vector`). -/
def addVec : List ℚ → List ℚ → List ℚ :=
  List.zipWith (· + ·)

/-- Model of `np.linalg.norm` (Euclidean norm) via `ratSqrt`. -/
def normQ (v : List ℚ) : ℚ :=
  ratSqrt (dotQ v v)

/-- Model of one item row as built by `_load_embeddings` in
`microtrends.py` (the dict with keys obj_type, obj_id, vector, ts_unix,
score, comments, title, sentiment, velocity).  The float `signal` entry
only fixes the pre-sort order of the item list, which is an input here;
its value is modelled separately in `ℝ` by `loadedItemSignal`. -/
structure Item where
  objType : String
  objId : String
  vector : List ℚ
  tsUnix : ℤ
  score : ℚ
  comments : ℚ
  title : String
  sentiment : ℚ
  velocity : ℚ
deriving DecidableEq

instance : Inhabited Item :=
  ⟨⟨"", "", [], 0, 0, 0, "", 0, 0⟩⟩

/-- The `_ClusterScratch` dataclass of `microtrends.py`. -/
structure ClusterScratch where
  sumVector : List ℚ
  members : List ℕ
  storyIds : List String
deriving DecidableEq

instance : Inhabited ClusterScratch :=
  ⟨⟨[], [], []⟩⟩

/-- `_ClusterScratch.add_member`. -/
def ClusterScratch.addMember (c : ClusterScratch) (idx : ℕ) (objId : String)
    (vec : List ℚ) : ClusterScratch :=
  { sumVector := addVec c.sumVector vec
    members := c.members ++ [idx]
    storyIds := c.storyIds ++ [objId] }

/-- The `_ClusterScratch.centroid` property: the sum vector normalized on
the fly, or the raw sum vector when its norm is zero. -/
def ClusterScratch.centroid (c : ClusterScratch) : List ℚ :=
  let norm := normQ c.sumVector
  if norm = 0 then c.sumVector else c.sumVector.map (· / norm)

/-- The inner scan of `_build_clusters`: starting from
`best_idx = None, best_score = threshold`, each cluster (scanned with its
index) replaces the running best when `sim >= threshold and
sim > best_score`. -/
def bestScan (vec : List ℚ) (threshold : ℚ) :
    List ClusterScratch → ℕ → Option ℕ × ℚ → Option ℕ × ℚ
  | [], _, acc => acc
  | c :: rest, i, (bIdx, bScore) =>
    let sim := dotQ vec c.centroid
    if threshold ≤ sim ∧ bScore < sim then
      bestScan vec threshold rest (i + 1) (some i, sim)
    else
      bestScan vec threshold rest (i + 1) (bIdx, bScore)

/-- One iteration of the `for idx, item in enumerate(items)` loop of
`_build_clusters`: append a new singleton cluster when the scan found no
best index, otherwise add the item to the best cluster. -/
def clusterStep (threshold : ℚ) (clusters : List ClusterScratch)
    (idx : ℕ) (item : Item) : List ClusterScratch :=
  match (bestScan item.vector threshold clusters 0 (none, threshold)).1 with
  | none => clusters ++ [⟨item.vector, [idx], [item.objId]⟩]
  | some b =>
    match clusters.get? b with
    | some c => clusters.set b (c.addMember idx item.objId item.vector)
    | none => clusters

/-- The loop of `_build_clusters` over the enumerated item list. -/
def buildClustersAux (threshold : ℚ) :
    List ClusterScratch → ℕ → List Item → List ClusterScratch
  | cs, _, [] => cs
  | cs, idx, item :: rest =>
    buildClustersAux threshold (clusterStep threshold cs idx item) (idx + 1) rest

/-- `_build_clusters(items, threshold)` of `microtrends.py`. -/
def buildClusters (items : List Item) (threshold : ℚ) : List ClusterScratch :=
  buildClustersAux threshold [] 0 items

/-- Similarity of a vector against the centroid of the cluster at position
`j` of a cluster list (0 when out of range). -/
def simAt (vec : List ℚ) (cs : List ClusterScratch) (j : ℕ) : ℚ :=
  dotQ vec (cs.getD j default).centroid

lemma bestScan_skip (vec : List ℚ) (T : ℚ) (cs : List ClusterScratch)
    (i : ℕ) (bIdx : Option ℕ) (bScore : ℚ)
    (h : ∀ c ∈ cs, dotQ vec c.centroid ≤ bScore) :
    bestScan vec T cs i (bIdx, bScore) = (bIdx, bScore) := by
  induction cs generalizing i with
  | nil => rfl
  | cons c rest ih =>
    have hc : dotQ vec c.centroid ≤ bScore := h c (by simp)
    have hnot : ¬ (T ≤ dotQ vec c.centroid ∧ bScore < dotQ vec c.centroid) := by
      rintro ⟨-, hlt⟩
      exact absurd hc (not_le.mpr hlt)
    simp only [bestScan, if_neg hnot]
    exact ih (i + 1) (fun d hd => h d (List.mem_cons_of_mem _ hd))

lemma bestScan_argmax (vec : List ℚ) (T : ℚ) (cs : List ClusterScratch)
    (i : ℕ) (hi : i < cs.length) (i₀ : ℕ) (bIdx : Option ℕ) (bScore : ℚ)
    (hTb : T ≤ bScore)
    (hbig : bScore < simAt vec cs i)
    (hmax : ∀ j < cs.length, simAt vec cs j ≤ simAt vec cs i)
    (hfirst : ∀ j < i, simAt vec cs j < simAt vec cs i) :
    (bestScan vec T cs i₀ (bIdx, bScore)).1 = some (i₀ + i) := by
  induction cs generalizing i i₀ bIdx bScore with
  | nil => exact absurd hi (by simp)
  | cons c rest ih =>
    cases i with
    | zero =>
      have hsim : simAt vec (c :: rest) 0 = dotQ vec c.centroid := by
        simp [simAt]
      have hb0 : bScore < dotQ vec c.centroid := by simpa [hsim] using hbig
      have hcond : T ≤ dotQ vec c.centroid ∧ bScore < dotQ vec c.centroid :=
        ⟨le_trans hTb (le_of_lt hb0), hb0⟩
      simp only [bestScan, if_pos hcond]
      have hrest : ∀ d ∈ rest, dotQ vec d.centroid ≤ dotQ vec c.centroid := by
        intro d hd
        obtain ⟨j, hj, rful⟩ := List.getElem_of_mem hd
        have := hmax (j + 1) (by simpa using Nat.succ_lt_succ hj)
        simpa [simAt, List.getD, List.getElem?_eq_getElem hj, rful, hsim] using this
      rw [bestScan_skip vec T rest (i₀ + 1) (some i₀) (dotQ vec c.centroid) hrest]
      simp
    | succ k =>
      have hshift : ∀ j, simAt vec (c :: rest) (j + 1) = simAt vec rest j := by
        intro j; simp [simAt, List.getD_cons_succ]
      have hk : k < rest.length := by simpa using hi
      by_cases hcond : T ≤ dotQ vec c.centroid ∧ bScore < dotQ vec c.centroid
      · simp only [bestScan, if_pos hcond]
        have := ih k hk (i₀ + 1) (some i₀) (dotQ vec c.centroid)
          (le_trans hTb (le_of_lt hcond.2))
          (by
            have h0 := hfirst 0 (Nat.succ_pos k)
            simpa [simAt, hshift] using h0)
          (fun j hj => by
            have := hmax (j + 1) (by simpa using Nat.succ_lt_succ hj)
            simpa [hshift] using this)
          (fun j hj => by
            have := hfirst (j + 1) (Nat.succ_lt_succ hj)
            simpa [hshift] using this)
        rw [this]
        congr 1
        omega
      · simp only [bestScan, if_neg hcond]
        have hib := ih k hk (i₀ + 1) bIdx bScore hTb
          (by simpa [hshift] using hbig)
          (fun j hj => by
            have := hmax (j + 1) (by simpa using Nat.succ_lt_succ hj)
            simpa [hshift] using this)
          (fun j hj => by
            have := hfirst (j + 1) (Nat.succ_lt_succ hj)
            simpa [hshift] using this)
        rw [hib]
        congr 1
        omega

/-- Concrete items exercising the threshold boundary of `_build_clusters`:
the second item's similarity to the first cluster's centroid is exactly
the threshold. -/
def itemA : Item :=
  ⟨"story", "a", [1, 0], 1, 0, 0, "", 0, 0⟩

/-- Companion of `itemA`; its vector has dot product exactly 3/5 with the
centroid of the singleton cluster opened by `itemA`. -/
def itemB : Item :=
  ⟨"story", "b", [3/5, 4/5], 1, 0, 0, "", 0, 0⟩

/-- C2: the claim states that an item whose best similarity EQUALS the
threshold joins that cluster.  On the code this is false: `_build_clusters`
initialises `best_score = threshold` and only accepts `sim > best_score`,
so at similarity exactly `T = 3/5` the item opens a new singleton cluster
instead of joining.  Here the best similarity is exactly `3/5` (first
conjunct) and the run ends with two singleton clusters, not one cluster of
two members. -/
theorem buildClusters_tie_at_threshold_cex :
    dotQ itemB.vector (ClusterScratch.centroid ⟨[1, 0], [0], ["a"]⟩) = 3/5 ∧
    buildClusters [itemA, itemB] (3/5)
      = [⟨[1, 0], [0], ["a"]⟩, ⟨[(3:ℚ)/5, 4/5], [1], ["b"]⟩] ∧
    (buildClusters [itemA, itemB] (3/5)).length = 2 := by
  refine ⟨?_, ?_, ?_⟩ <;>
    norm_num [buildClusters, buildClustersAux, clusterStep, bestScan,
      ClusterScratch.centroid, normQ, dotQ, ratSqrt, itemA, itemB, Nat.sqrt]

/-- C2 (amended): the per-item behaviour of `_build_clusters`.  If every
existing cluster's centroid similarity is at most the threshold (including
exact equality with it), the item opens a new singleton cluster; if some
cluster's similarity strictly exceeds the threshold, the item joins the
earliest-created cluster of strictly highest similarity. -/
theorem clusterStep_strict_threshold_spec (item : Item) (idx : ℕ)
    (cs : List ClusterScratch) (T : ℚ) :
    ((∀ c ∈ cs, dotQ item.vector c.centroid ≤ T) →
      clusterStep T cs idx item = cs ++ [⟨item.vector, [idx], [item.objId]⟩])
  ∧ (∀ i, i < cs.length →
      T < simAt item.vector cs i →
      (∀ j < cs.length, simAt item.vector cs j ≤ simAt item.vector cs i) →
      (∀ j < i, simAt item.vector cs j < simAt item.vector cs i) →
      clusterStep T cs idx item
        = cs.set i ((cs.getD i default).addMember idx item.objId item.vector)) := by
  constructor
  · intro h
    unfold clusterStep
    rw [bestScan_skip item.vector T cs 0 none T h]
  · intro i hi hT hmax hfirst
    unfold clusterStep
    have hscan := bestScan_argmax item.vector T cs i hi 0 none T le_rfl hT hmax hfirst
    rw [Nat.zero_add] at hscan
    rw [hscan]
    have hget : cs.get? i = some (cs.getD i default) := by
      rw [List.get?_eq_getElem?, List.getElem?_eq_getElem hi]
      simp [List.getD, List.getElem?_eq_getElem hi]
    simp only [hget]

/-- Stable insertion into a sorted list: the new element goes after every
element that may precede it, so elements equivalent under `le` keep their
original relative order. -/
def insertLe {α : Type} (le : α → α → Bool) (x : α) : List α → List α
  | [] => [x]
  | y :: ys => if le y x then y :: insertLe le x ys else x :: y :: ys

/-- Model of Python's `sorted` (a stable sort): stable insertion sort,
extensionally equal to any stable sort for the comparator. -/
def stableSort {α : Type} (le : α → α → Bool) (l : List α) : List α :=
  l.foldl (fun acc x => insertLe le x acc) []

lemma insertLe_perm {α : Type} (le : α → α → Bool) (x : α) (l : List α) :
    (insertLe le x l).Perm (x :: l) := by
  induction l with
  | nil => exact List.Perm.refl _
  | cons y ys ih =>
    by_cases h : le y x
    · simpa [insertLe, h] using ((ih.cons y).trans (List.Perm.swap x y ys))
    · simp [insertLe, h]

lemma insertLe_pairwise {α : Type} (le : α → α → Bool)
    (htrans : ∀ a b c, le a b = true → le b c = true → le a c = true)
    (htot : ∀ a b, le a b = true ∨ le b a = true)
    (x : α) (l : List α) (hl : l.Pairwise (fun a b => le a b = true)) :
    (insertLe le x l).Pairwise (fun a b => le a b = true) := by
  induction l with
  | nil => simp [insertLe]
  | cons y ys ih =>
    rcases List.pairwise_cons.mp hl with ⟨hy, hys⟩
    by_cases h : le y x
    · have hins := ih hys
      have hmem : ∀ z ∈ insertLe le x ys, le y z = true := by
        intro z hz
        have hz' := (insertLe_perm le x ys).mem_iff.mp hz
        rcases List.mem_cons.mp hz' with rfl | hzys
        · exact h
        · exact hy z hzys
      rw [insertLe, if_pos h]
      exact List.pairwise_cons.mpr ⟨hmem, hins⟩
    · have hxy : le x y = true := by
        rcases htot x y with hxy | hyx
        · exact hxy
        · exact absurd hyx h
      rw [insertLe, if_neg h]
      refine List.pairwise_cons.mpr ⟨?_, hl⟩
      intro z hz
      rcases List.mem_cons.mp hz with rfl | hzys
      · exact hxy
      · exact htrans x y z hxy (hy z hzys)

lemma foldl_insertLe_perm {α : Type} (le : α → α → Bool) (l acc : List α) :
    (l.foldl (fun a x => insertLe le x a) acc).Perm (acc ++ l) := by
  induction l generalizing acc with
  | nil => simp
  | cons x xs ih =>
    have h1 := ih (insertLe le x acc)
    have h2 : (insertLe le x acc ++ xs).Perm (acc ++ x :: xs) := by
      refine ((insertLe_perm le x acc).append_right xs).trans ?_
      exact List.perm_middle.symm
    simpa using h1.trans h2

lemma stableSort_perm {α : Type} (le : α → α → Bool) (l : List α) :
    (stableSort le l).Perm l := by
  simpa [stableSort] using foldl_insertLe_perm le l []

lemma foldl_insertLe_pairwise {α : Type} (le : α → α → Bool)
    (htrans : ∀ a b c, le a b = true → le b c = true → le a c = true)
    (htot : ∀ a b, le a b = true ∨ le b a = true)
    (l acc : List α) (hacc : acc.Pairwise (fun a b => le a b = true)) :
    (l.foldl (fun a x => insertLe le x a) acc).Pairwise
      (fun a b => le a b = true) := by
  induction l generalizing acc with
  | nil => simpa using hacc
  | cons x xs ih =>
    exact ih (insertLe le x acc) (insertLe_pairwise le htrans htot x acc hacc)

lemma stableSort_pairwise {α : Type} (le : α → α → Bool)
    (htrans : ∀ a b c, le a b = true → le b c = true → le a c = true)
    (htot : ∀ a b, le a b = true ∨ le b a = true)
    (l : List α) :
    (stableSort le l).Pairwise (fun a b => le a b = true) :=
  foldl_insertLe_pairwise le htrans htot l [] (by simp)

/-- Lexicographic comparison of character lists by code point, the order
Python uses to compare strings. -/
def charListLe : List Char → List Char → Bool
  | [], _ => true
  | _ :: _, [] => false
  | a :: as, b :: bs => if a = b then charListLe as bs else decide (a < b)

/-- Python string comparison (code-point lexicographic) as a Bool. -/
def strLe (a b : String) : Bool :=
  charListLe a.toList b.toList

lemma charListLe_trans :
    ∀ a b c, charListLe a b = true → charListLe b c = true →
      charListLe a c = true := by
  intro a
  induction a with
  | nil => intro b c _ _; rfl
  | cons x xs ih =>
    intro b c hab hbc
    cases b with
    | nil => simp [charListLe] at hab
    | cons y ys =>
      cases c with
      | nil => simp [charListLe] at hbc
      | cons z zs =>
        by_cases hxy : x = y
        · subst hxy
          rw [charListLe, if_pos rfl] at hab
          by_cases hyz : x = z
          · subst hyz
            rw [charListLe, if_pos rfl] at hbc ⊢
            exact ih ys zs hab hbc
          · rw [charListLe, if_neg hyz] at hbc ⊢
            exact hbc
        · rw [charListLe, if_neg hxy] at hab
          have hxylt : x < y := of_decide_eq_true hab
          by_cases hyz : y = z
          · subst hyz
            have hxz : x ≠ y := hxy
            rw [charListLe, if_neg hxz]
            exact decide_eq_true hxylt
          · rw [charListLe, if_neg hyz] at hbc
            have hyzlt : y < z := of_decide_eq_true hbc
            have hxzlt : x < z := lt_trans hxylt hyzlt
            have hxz : x ≠ z := ne_of_lt hxzlt
            rw [charListLe, if_neg hxz]
            exact decide_eq_true hxzlt

lemma charListLe_total :
    ∀ a b, charListLe a b = true ∨ charListLe b a = true := by
  intro a
  induction a with
  | nil => intro b; exact Or.inl rfl
  | cons x xs ih =>
    intro b
    cases b with
    | nil => exact Or.inr rfl
    | cons y ys =>
      by_cases hxy : x = y
      · subst hxy
        rcases ih ys with h | h
        · exact Or.inl (by rw [charListLe, if_pos rfl]; exact h)
        · exact Or.inr (by rw [charListLe, if_pos rfl]; exact h)
      · rcases lt_or_gt_of_ne hxy with hlt | hgt
        · exact Or.inl (by rw [charListLe, if_neg hxy]; exact decide_eq_true hlt)
        · refine Or.inr ?_
          have hyx : y ≠ x := fun h => hxy h.symm
          rw [charListLe, if_neg hyx]
          exact decide_eq_true hgt

lemma strLe_trans (a b c : String) (hab : strLe a b = true)
    (hbc : strLe b c = true) : strLe a c = true :=
  charListLe_trans a.toList b.toList c.toList hab hbc

lemma strLe_total (a b : String) : strLe a b = true ∨ strLe b a = true :=
  charListLe_total a.toList b.toList

/-- Model of Python `sorted` on a list of strings. -/
def sortStrings (l : List String) : List String :=
  stableSort strLe l

/-- The mapping built by `_load_terms`: `(obj_type, obj_id)` to the dict of
term weights, modelled as an insertion-ordered association list. -/
def TermMap : Type :=
  List ((String × String) × List (String × ℚ))

/-- Dictionary lookup `term_map.get(key, {})`. -/
def lookupTerms (tm : TermMap) (key : String × String) : List (String × ℚ) :=
  match tm.find? (fun e => e.1 == key) with
  | some e => e.2
  | none => []

/-- One `counter[term] += weight` step on a `defaultdict(float)` modelled as
an insertion-ordered association list. -/
def bumpTerm : List (String × ℚ) → String → ℚ → List (String × ℚ)
  | [], t, w => [(t, w)]
  | (a, x) :: rest, t, w =>
    if a = t then (a, x + w) :: rest else (a, x) :: bumpTerm rest t w

/-- The aggregated term-weight counter of `_top_terms_for_cluster`: for
each member index, the member's term weights are added into the counter. -/
def clusterCounter (clusterMembers : List ℕ) (items : List Item)
    (termMap : TermMap) : List (String × ℚ) :=
  clusterMembers.foldl
    (fun counter idx =>
      let item := items.getD idx default
      (lookupTerms termMap (item.objType, item.objId)).foldl
        (fun c tw => bumpTerm c tw.1 tw.2) counter)
    []

/-- Comparator of `sorted(counter.items(), key=entry[1], reverse=True)`:
stable descending order by weight. -/
def weightGe (a b : String × ℚ) : Bool :=
  decide (b.2 ≤ a.2)

/-- Python `sorted(..., key=lambda entry: entry[1], reverse=True)` on the
counter items. -/
def sortByWeight (counter : List (String × ℚ)) : List (String × ℚ) :=
  stableSort weightGe counter

/-- Model of Python `str.title()`: alphabetic characters are uppercased at
word starts and lowercased elsewhere, word boundaries being non-alphabetic
characters. -/
def titleCaseAux : Bool → List Char → List Char
  | _, [] => []
  | prevAlpha, c :: rest =>
    let c' := if c.isAlpha then (if prevAlpha then c.toLower else c.toUpper) else c
    c' :: titleCaseAux c.isAlpha rest

/-- String form of `titleCaseAux`. -/
def pythonTitle (s : String) : String :=
  ⟨titleCaseAux false s.toList⟩

/-- `_top_terms_for_cluster(cluster_members, items, term_map, top_k)` of
`microtrends.py`, returning `(keywords, label, sample_titles)`. -/
def topTermsForCluster (clusterMembers : List ℕ) (items : List Item)
    (termMap : TermMap) (topK : ℕ) : List String × String × List String :=
  let counter := clusterCounter clusterMembers items termMap
  let titles := clusterMembers.map (fun idx => (items.getD idx default).title)
  if counter = [] then
    let titles5 := titles.take 5
    let rawLabel := String.intercalate " / " (titles5.take 2)
    ([], if rawLabel = "" then "Untitled" else rawLabel, titles5)
  else
    let keywords := ((sortByWeight counter).take topK).map (fun e => e.1)
    let lbl := String.intercalate " / "
      ((keywords.take 3).map (fun t => pythonTitle (t.replace "_" " ")))
    (keywords, if lbl = "" then keywords.getD 0 "" else lbl, titles.take 5)

/-- `_fingerprint(keywords, story_ids)` of `microtrends.py`. -/
def fingerprint (keywords : List String) (storyIds : List String) : String :=
  if keywords ≠ [] then String.intercalate "|" (sortStrings (keywords.take 3))
  else String.intercalate "|" (sortStrings (storyIds.take 2))

lemma weightGe_trans (a b c : String × ℚ) (hab : weightGe a b = true)
    (hbc : weightGe b c = true) : weightGe a c = true := by
  have h1 : b.2 ≤ a.2 := of_decide_eq_true hab
  have h2 : c.2 ≤ b.2 := of_decide_eq_true hbc
  exact decide_eq_true (le_trans h2 h1)

lemma weightGe_total (a b : String × ℚ) :
    weightGe a b = true ∨ weightGe b a = true := by
  rcases le_total a.2 b.2 with h | h
  · exact Or.inr (decide_eq_true h)
  · exact Or.inl (decide_eq_true h)

/-- C4 (amended): the fingerprint of a cluster.  The aggregated counter is
stably sorted descending by weight, so the first three keywords are terms
of maximal aggregated weight (everything beyond position 3 weighs no
more), and the fingerprint joins those top-3 terms sorted; when no terms
resolve, the fingerprint joins the FIRST TWO member object ids (in cluster
member order), sorted — not the two lexicographically smallest ids. -/
theorem fingerprint_top_terms_spec (clusterMembers : List ℕ)
    (items : List Item) (termMap : TermMap) (storyIds : List String) :
    let c := clusterCounter clusterMembers items termMap
    let s := sortByWeight c
    s.Perm c
  ∧ s.Pairwise (fun a b => b.2 ≤ a.2)
  ∧ (∀ p ∈ s.take 3, ∀ q ∈ s.drop 3, q.2 ≤ p.2)
  ∧ (c ≠ [] →
      (topTermsForCluster clusterMembers items termMap 6).1
          = (s.take 6).map (fun e => e.1)
      ∧ fingerprint (topTermsForCluster clusterMembers items termMap 6).1 storyIds
          = String.intercalate "|" (sortStrings ((s.take 3).map (fun e => e.1))))
  ∧ (c = [] →
      (topTermsForCluster clusterMembers items termMap 6).1 = []
      ∧ fingerprint (topTermsForCluster clusterMembers items termMap 6).1 storyIds
          = String.intercalate "|" (sortStrings (storyIds.take 2)))
  ∧ (sortStrings ((s.take 3).map (fun e => e.1))).Pairwise
      (fun a b => strLe a b = true) := by
  intro c s
  have hperm : s.Perm c := stableSort_perm weightGe c
  have hpw : s.Pairwise (fun a b => b.2 ≤ a.2) :=
    (stableSort_pairwise weightGe weightGe_trans weightGe_total c).imp
      (fun h => of_decide_eq_true h)
  refine ⟨hperm, hpw, ?_, ?_, ?_, ?_⟩
  · intro p hp q hq
    have hsplit : s = s.take 3 ++ s.drop 3 := (List.take_append_drop 3 s).symm
    have := (List.pairwise_append.mp (hsplit ▸ hpw)).2.2
    exact this p hp q hq
  · intro hne
    have hkw : (topTermsForCluster clusterMembers items termMap 6).1
        = (s.take 6).map (fun e => e.1) := by
      show (topTermsForCluster clusterMembers items termMap 6).1 = _
      unfold topTermsForCluster
      rw [if_neg hne]
    refine ⟨hkw, ?_⟩
    have hs0 : s ≠ [] := by
      intro hs
      have hl := hperm.length_eq
      rw [hs] at hl
      exact hne (List.eq_nil_of_length_eq_zero hl.symm)
    obtain ⟨a, as, hsc⟩ := List.exists_cons_of_ne_nil hs0
    have hkwne : (s.take 6).map (fun e => e.1) ≠ [] := by
      rw [hsc]; simp
    rw [hkw]
    rw [fingerprint, if_pos hkwne]
    congr 2
    rw [← List.map_take, List.take_take]
    norm_num
  · intro heq
    have hkw : (topTermsForCluster clusterMembers items termMap 6).1 = [] := by
      show (topTermsForCluster clusterMembers items termMap 6).1 = _
      unfold topTermsForCluster
      rw [if_pos heq]
    refine ⟨hkw, ?_⟩
    rw [hkw, fingerprint, if_neg (by simp)]
  · exact stableSort_pairwise strLe strLe_trans strLe_total _

/-- Three items carrying no terms, with member object ids in the order
`b, c, a`, exercising the fallback branch of `_fingerprint`. -/
def itemsFpCex : List Item :=
  [⟨"story", "b", [], 1, 0, 0, "tb", 0, 0⟩,
   ⟨"story", "c", [], 1, 0, 0, "tc", 0, 0⟩,
   ⟨"story", "a", [], 1, 0, 0, "ta", 0, 0⟩]

/-- C4: the claim's fallback — "the two lowest-sorted member object ids,
joined sorted" — is false on the code.  With member ids `b, c, a` and no
terms, `_fingerprint` takes the FIRST TWO ids (`b, c`) and sorts them,
yielding `"b|c"`, while the two lowest-sorted ids are `a, b`, which would
yield `"a|b"`. -/
theorem fingerprint_fallback_cex :
    (topTermsForCluster [0, 1, 2] itemsFpCex [] 6).1 = [] ∧
    fingerprint [] ["b", "c", "a"] = "b|c" ∧
    (sortStrings ["b", "c", "a"]).take 2 = ["a", "b"] ∧
    fingerprint [] ["b", "c", "a"] ≠ "a|b" := by
  refine ⟨by decide, by decide, by decide, by decide⟩

/-- The function `_signal_weight(now, item_ts, window_days)` of
`microtrends.py`, with `math.exp` modelled by `Real.exp`. -/
noncomputable def signalWeight (now itemTs : ℤ) (windowDays : ℚ) : ℝ :=
  if itemTs ≤ 0 then 0
  else
    Real.exp (-((max 0 (now - itemTs) : ℤ) : ℝ)
      / ((max (windowDays / 2) (3/2) * 86400 : ℚ) : ℝ))

/-- The velocity computed per row in `_load_embeddings`:
`(score - prev_score) + (comments - prev_comments) * comment_weight`. -/
def loadedItemVelocity (commentWeight score prevScore comments prevComments : ℚ) : ℚ :=
  (score - prevScore) + (comments - prevComments) * commentWeight

/-- The base signal computed per row in `_load_embeddings`:
`score + comment_weight * comments + 1.0 + sentiment * sentiment_weight +
velocity`. -/
def loadedItemBaseSignal (commentWeight sentimentWeight score comments sentiment velocity : ℚ) : ℚ :=
  score + commentWeight * comments + 1 + sentiment * sentimentWeight + velocity

/-- The signal computed per row in `_load_embeddings`:
`signal = base_signal * weight`. -/
noncomputable def loadedItemSignal (now itemTs : ℤ)
    (windowDays commentWeight sentimentWeight score prevScore comments prevComments sentiment : ℚ) : ℝ :=
  (loadedItemBaseSignal commentWeight sentimentWeight score comments sentiment
      (loadedItemVelocity commentWeight score prevScore comments prevComments) : ℝ)
    * signalWeight now itemTs windowDays

/-- C5: for an item with a positive timestamp, the signal of
`_load_embeddings` equals the claimed closed form
`(metric_1 + comment_weight*metric_2 + 1 + sentiment*sentiment_weight +
velocity) * exp(-age_seconds / (max(window_days/2, 1.5) * 86400))` with
`velocity = (metric_1 - prev_metric_1) + (metric_2 - prev_metric_2) *
comment_weight` and `age_seconds = max(0, now - item_ts)`. -/
theorem loadedItemSignal_formula (now itemTs : ℤ)
    (wd cw sw m1 pm1 m2 pm2 sent : ℚ) (h : 0 < itemTs) :
    loadedItemSignal now itemTs wd cw sw m1 pm1 m2 pm2 sent
      = ((m1 + cw * m2 + 1 + sent * sw
            + ((m1 - pm1) + (m2 - pm2) * cw) : ℚ) : ℝ)
        * Real.exp (-((max 0 (now - itemTs) : ℤ) : ℝ)
            / (((max (wd / 2) (3/2) : ℚ) : ℝ) * 86400)) := by
  unfold loadedItemSignal signalWeight loadedItemBaseSignal loadedItemVelocity
  rw [if_neg (not_le.mpr h)]
  push_cast
  ring_nf

/-- C5 witness: the spec scenario.  `metric_1 = 100`, `metric_2 = 50`,
`sentiment = 0`, zero velocity (previous metrics equal the current ones),
`comment_weight = 0.6`, `sentiment_weight = 0.5`, age 0 (`now = item_ts`),
`window_days = 30`: the signal is exactly 131. -/
theorem loadedItemSignal_scenario_131 :
    loadedItemSignal 1000 1000 30 (3/5) (1/2) 100 100 50 50 0 = 131 := by
  rw [loadedItemSignal_formula 1000 1000 30 (3/5) (1/2) 100 100 50 50 0
    (by norm_num)]
  norm_num [Real.exp_zero]

/-- A row of the `trend_clusters` table (the columns the verified claims
touch); NULLable columns are `Option`. -/
structure TrendRow where
  trendId : ℕ
  label : Option String
  centroid : Option (List ℚ)
  active : Bool
  latestSignal : Option ℚ
  timesSeen : Option ℕ
deriving DecidableEq

/-- A row of the `trend_cluster_members` table. -/
structure MemberRow where
  trendId : ℕ
  objType : String
  objId : String
  firstSeen : String
  lastSeen : String
deriving DecidableEq

/-- The persistent trend store: `trend_clusters` plus
`trend_cluster_members`. -/
structure TrendDB where
  trends : List TrendRow
  members : List MemberRow
deriving DecidableEq

/-- `SELECT * FROM trend_clusters WHERE trend_id = ?` (first row). -/
def findTrend (db : TrendDB) (trendId : ℕ) : Option TrendRow :=
  db.trends.find? (fun r => r.trendId == trendId)

/-- `window_weeks = max(window_days / 7.0, 1.0)` of `build_components`. -/
def windowWeeks (windowDays : ℚ) : ℚ :=
  max (windowDays / 7) 1

/-- The matched-trend update branch of `build_components`.  The locals of
lines 792-797 compute exactly the claimed formulas, but the next statement
(`signal_total += (average_sentiment - previous_sentiment) *
sentiment_weight`) reads the name `previous_sentiment`, which is bound
nowhere in the function, so Python raises `NameError` before the `UPDATE`
statement runs; the embedding returns that error. -/
def matchedTrendUpdate (meta : TrendRow)
    (signalTotal averageSentiment sentimentWeight wWeeks : ℚ) :
    Except String TrendRow :=
  let previousSignal : ℚ := meta.latestSignal.getD 0
  let timesSeen : ℕ := meta.timesSeen.getD 0 + 1
  let novelty : ℚ := max (1/5) (1 / (timesSeen : ℚ))
  let persistence : ℚ := min 1 ((timesSeen : ℚ) / wWeeks)
  let signalDelta : ℚ := signalTotal - previousSignal
  Except.error "NameError: name previous_sentiment is not defined"

/-- C1: the matched-trend update of `build_components` never completes.
For every matched trend and every input the branch evaluates to the
`NameError` raised by the read of the unbound name `previous_sentiment`,
so no matched trend is ever updated in place or persisted. -/
theorem matchedTrendUpdate_never_completes (meta : TrendRow)
    (signalTotal averageSentiment sentimentWeight wWeeks : ℚ) :
    matchedTrendUpdate meta signalTotal averageSentiment sentimentWeight wWeeks
      = Except.error "NameError: name previous_sentiment is not defined" :=
  rfl

/-- One `UPDATE trend_clusters SET active = 0, latest_signal = ? WHERE
trend_id = ?` statement. -/
def applyStaleUpdate (db : TrendDB) (u : ℚ × ℕ) : TrendDB :=
  { db with
      trends := db.trends.map (fun r =>
        if r.trendId = u.2 then
          { r with active := false, latestSignal := some u.1 }
        else r) }

/-- The decayed updates `(previous_latest_signal * stale_decay_factor,
trend_id)` computed by `build_components` for every trend of
`cluster_meta` matched by nothing this run. -/
def staleUpdates (metaRows : List TrendRow) (matched : List ℕ)
    (factor : ℚ) : List (ℚ × ℕ) :=
  (metaRows.filter (fun r => !(matched.contains r.trendId))).map
    (fun r => ((r.latestSignal.getD 0) * factor, r.trendId))

/-- The `executemany` applying the stale updates. -/
def applyStaleUpdates (db : TrendDB) (updates : List (ℚ × ℕ)) : TrendDB :=
  updates.foldl applyStaleUpdate db

/-- The stale-trend stage at the end of `build_components` (lines
884-897). -/
def staleStage (db : TrendDB) (metaRows : List TrendRow) (matched : List ℕ)
    (factor : ℚ) : TrendDB :=
  applyStaleUpdates db (staleUpdates metaRows matched factor)

/-- Componentwise arithmetic mean of two centroids,
`(frombuffer(c1) + frombuffer(c2)) / 2`. -/
def meanVec (c1 c2 : List ℚ) : List ℚ :=
  List.zipWith (fun x y => (x + y) / 2) c1 c2

/-- SQLite `lastrowid` for an insert into `trend_clusters`: one more than
the largest existing trend id. -/
def nextId (db : TrendDB) : ℕ :=
  db.trends.foldl (fun m r => max m r.trendId) 0 + 1

/-- The key protected by the UNIQUE index on `trend_cluster_members`. -/
def memberKey (m : MemberRow) : ℕ × String × String :=
  (m.trendId, m.objType, m.objId)

/-- Modelled from the spec: the schema file declaring
`trend_cluster_members` is not among the sources, but the upsert of
`_ensure_cluster_members_table` (`ON CONFLICT(trend_id, obj_type,
obj_id)`) requires a UNIQUE key on `(trend_id, obj_type, obj_id)` and the
spec states the table is unique per that triple.  One
`UPDATE trend_cluster_members SET trend_id = ? WHERE trend_id = ?`
statement therefore succeeds only when the re-pointed table still
satisfies the key; otherwise SQLite raises IntegrityError and the
enclosing transaction rolls back, modelled by `none`. -/
def repointMembers (members : List MemberRow) (src dst : ℕ) :
    Option (List MemberRow) :=
  let updated := members.map (fun m =>
    if m.trendId = src then { m with trendId := dst } else m)
  if (updated.map memberKey).Nodup then some updated else none

/-- `_merge_themes(conn, trend_id1, trend_id2)` of `microtrends.py`:
insert the combined trend, re-point the members of both source trends to
the new id (two UPDATE statements, each subject to the UNIQUE member
key), mark both sources inactive.  Missing rows, NULL labels or
centroids, or a uniqueness violation during a re-point make the Python
function raise inside `with conn:` (everything rolls back), modelled by
`none`. -/
def mergeThemes (db : TrendDB) (t1 t2 : ℕ) : Option (TrendDB × ℕ) := do
  let r1 ← findTrend db t1
  let r2 ← findTrend db t2
  let l1 ← r1.label
  let l2 ← r2.label
  let c1 ← r1.centroid
  let c2 ← r2.centroid
  let newId := nextId db
  let newRow : TrendRow :=
    { trendId := newId, label := some (l1 ++ " / " ++ l2),
      centroid := some (meanVec c1 c2), active := true,
      latestSignal := none, timesSeen := none }
  let trends1 := db.trends ++ [newRow]
  let members1 ← repointMembers db.members t1 newId
  let members2 ← repointMembers members1 t2 newId
  let trends2 := trends1.map (fun r =>
    if r.trendId = t1 then { r with active := false } else r)
  let trends3 := trends2.map (fun r =>
    if r.trendId = t2 then { r with active := false } else r)
  return ({ trends := trends3, members := members2 }, newId)

/-- Python truthiness of a stored centroid BLOB in
`_calculate_theme_similarity`: NULL and the empty buffer are falsy. -/
def truthyCentroid : Option (List ℚ) → Option (List ℚ)
  | none => none
  | some v => if v = [] then none else some v

/-- `_calculate_theme_similarity(conn, trend_id1, trend_id2)` of
`microtrends.py`. -/
def calculateThemeSimilarity (db : TrendDB) (t1 t2 : ℕ) : ℚ :=
  match findTrend db t1, findTrend db t2 with
  | some r1, some r2 =>
    match truthyCentroid r1.centroid, truthyCentroid r2.centroid with
    | some c1, some c2 =>
      if normQ c1 = 0 ∨ normQ c2 = 0 then 0
      else dotQ c1 c2 / (normQ c1 * normQ c2)
    | _, _ => 0
  | _, _ => 0

/-- C10: `_calculate_theme_similarity` is total and never divides by
zero.  It returns 0 when either trend row is absent, either stored
centroid is NULL or empty, or either centroid has zero norm; otherwise it
returns `dot(c1, c2) / (norm(c1) * norm(c2))` with a provably nonzero
denominator.  Consequently a pair with a degenerate centroid can never
exceed a nonnegative merge threshold, so the merge pass never pairs it. -/
theorem calculateThemeSimilarity_spec (db : TrendDB) (t1 t2 : ℕ) :
    ((findTrend db t1 = none ∨ findTrend db t2 = none) →
        calculateThemeSimilarity db t1 t2 = 0)
  ∧ (∀ r1 r2, findTrend db t1 = some r1 → findTrend db t2 = some r2 →
        (truthyCentroid r1.centroid = none ∨ truthyCentroid r2.centroid = none) →
        calculateThemeSimilarity db t1 t2 = 0)
  ∧ (∀ r1 r2 c1 c2, findTrend db t1 = some r1 → findTrend db t2 = some r2 →
        truthyCentroid r1.centroid = some c1 →
        truthyCentroid r2.centroid = some c2 →
        (normQ c1 = 0 ∨ normQ c2 = 0 →
            calculateThemeSimilarity db t1 t2 = 0)
        ∧ (normQ c1 ≠ 0 → normQ c2 ≠ 0 →
            calculateThemeSimilarity db t1 t2
              = dotQ c1 c2 / (normQ c1 * normQ c2)
            ∧ normQ c1 * normQ c2 ≠ 0))
  ∧ (calculateThemeSimilarity db t1 t2 = 0 →
        ∀ mergeThreshold : ℚ, 0 ≤ mergeThreshold →
          ¬ (mergeThreshold < calculateThemeSimilarity db t1 t2)) := by
  refine ⟨?_, ?_, ?_, ?_⟩
  · rintro (h | h) <;> simp [calculateThemeSimilarity, h]
  · rintro r1 r2 h1 h2 (h | h) <;> simp [calculateThemeSimilarity, h1, h2, h]
  · intro r1 r2 c1 c2 h1 h2 hc1 hc2
    constructor
    · intro h
      simp [calculateThemeSimilarity, h1, h2, hc1, hc2, h]
    · intro hn1 hn2
      have hne : ¬ (normQ c1 = 0 ∨ normQ c2 = 0) := by
        rintro (h | h) <;> [exact hn1 h; exact hn2 h]
      constructor
      · simp [calculateThemeSimilarity, h1, h2, hc1, hc2, hne]
      · exact mul_ne_zero hn1 hn2
  · intro h0 mergeThreshold hmt
    rw [h0]
    exact not_lt.mpr hmt

lemma applyStaleUpdate_sets (db : TrendDB) (u : ℚ × ℕ) :
    ∀ t ∈ (applyStaleUpdate db u).trends, t.trendId = u.2 →
      t.latestSignal = some u.1 ∧ t.active = false := by
  intro t ht hid
  rcases List.mem_map.mp ht with ⟨r, hr, hrt⟩
  by_cases h : r.trendId = u.2
  · rw [if_pos h] at hrt
    subst hrt
    exact ⟨rfl, rfl⟩
  · rw [if_neg h] at hrt
    subst hrt
    exact absurd hid h

lemma applyStaleUpdate_keeps (db : TrendDB) (u : ℚ × ℕ) (i : ℕ)
    (hne : u.2 ≠ i) (P : TrendRow → Prop)
    (h : ∀ t ∈ db.trends, t.trendId = i → P t) :
    ∀ t ∈ (applyStaleUpdate db u).trends, t.trendId = i → P t := by
  intro t ht hid
  rcases List.mem_map.mp ht with ⟨r, hr, hrt⟩
  by_cases hru : r.trendId = u.2
  · rw [if_pos hru] at hrt
    subst hrt
    exact absurd (hid ▸ hru.symm) hne
  · rw [if_neg hru] at hrt
    subst hrt
    exact h r hr hid

lemma applyStaleUpdates_keeps (updates : List (ℚ × ℕ)) (db : TrendDB)
    (i : ℕ) (hne : ∀ w ∈ updates, w.2 ≠ i) (P : TrendRow → Prop)
    (h : ∀ t ∈ db.trends, t.trendId = i → P t) :
    ∀ t ∈ (applyStaleUpdates db updates).trends, t.trendId = i → P t := by
  induction updates generalizing db with
  | nil => exact h
  | cons v rest ih =>
    exact ih (applyStaleUpdate db v)
      (fun w hw => hne w (List.mem_cons_of_mem _ hw))
      (applyStaleUpdate_keeps db v i (hne v (by simp)) P h)

lemma applyStaleUpdates_applies (updates : List (ℚ × ℕ)) (db : TrendDB)
    (u : ℚ × ℕ) (hu : u ∈ updates)
    (hnd : (updates.map (fun w => w.2)).Nodup) :
    ∀ t ∈ (applyStaleUpdates db updates).trends, t.trendId = u.2 →
      t.latestSignal = some u.1 ∧ t.active = false := by
  induction updates generalizing db with
  | nil => exact absurd hu (by simp)
  | cons v rest ih =>
    rcases List.mem_cons.mp hu with rfl | hurest
    · rw [List.map_cons] at hnd
      have hrest : ∀ w ∈ rest, w.2 ≠ u.2 := by
        intro w hw heq
        have hmm : u.2 ∈ rest.map (fun w => w.2) := by
          rw [← heq]
          exact List.mem_map_of_mem (fun w => w.2) hw
        exact (List.nodup_cons.mp hnd).1 hmm
      exact applyStaleUpdates_keeps rest (applyStaleUpdate db u) u.2 hrest _
        (applyStaleUpdate_sets db u)
    · rw [List.map_cons] at hnd
      exact ih (applyStaleUpdate db v) hurest (List.nodup_cons.mp hnd).2

/-- C8 (amended): every trend of `cluster_meta` that no cluster matched
ends the run with `latest_signal = previous_latest_signal *
stale_decay_factor` and `active = 0`; the decay is a STRICT decrease
whenever the previous signal is positive and the factor lies in `(0, 1)`
(for a previous signal of exactly 0 the decayed signal equals the old
one). -/
theorem staleStage_decay_spec (db : TrendDB) (metaRows : List TrendRow)
    (matched : List ℕ) (factor : ℚ) (r : TrendRow)
    (hmem : r ∈ metaRows) (hstale : r.trendId ∉ matched)
    (hnd : (metaRows.map (fun m => m.trendId)).Nodup) :
    (∀ t ∈ (staleStage db metaRows matched factor).trends,
        t.trendId = r.trendId →
          t.latestSignal = some ((r.latestSignal.getD 0) * factor)
          ∧ t.active = false)
  ∧ (0 < r.latestSignal.getD 0 → 0 < factor → factor < 1 →
      (r.latestSignal.getD 0) * factor < r.latestSignal.getD 0) := by
  constructor
  · have hflt : r ∈ metaRows.filter (fun m => !(matched.contains m.trendId)) := by
      rw [List.mem_filter]
      exact ⟨hmem, by simp [hstale]⟩
    have hu : ((r.latestSignal.getD 0) * factor, r.trendId)
        ∈ staleUpdates metaRows matched factor :=
      List.mem_map_of_mem _ hflt
    have hndu : ((staleUpdates metaRows matched factor).map
        (fun w => w.2)).Nodup := by
      have hsub : List.Sublist
          ((metaRows.filter (fun m => !(matched.contains m.trendId))).map
            (fun m => m.trendId))
          (metaRows.map (fun m => m.trendId)) :=
        (List.filter_sublist metaRows).map (fun m => m.trendId)
      have : (staleUpdates metaRows matched factor).map (fun w => w.2)
          = (metaRows.filter (fun m => !(matched.contains m.trendId))).map
              (fun m => m.trendId) := by
        simp [staleUpdates, List.map_map]
      rw [this]
      exact hnd.sublist hsub
    exact applyStaleUpdates_applies (staleUpdates metaRows matched factor) db
      ((r.latestSignal.getD 0) * factor, r.trendId) hu hndu
  · intro h0 hf0 hf1
    exact mul_lt_of_lt_one_right h0 hf1

/-- A stale trend row with previous `latest_signal` 4, for the witness. -/
def staleRowW : TrendRow :=
  ⟨2, none, none, true, some 4, none⟩

/-- C8 witness: the decay theorem applied to a concrete stale trend with
previous signal 4 and factor 9/10. -/
theorem staleStage_decay_witness :
    (∀ t ∈ (staleStage ⟨[staleRowW], []⟩ [staleRowW] [] (9/10)).trends,
        t.trendId = staleRowW.trendId →
          t.latestSignal = some ((staleRowW.latestSignal.getD 0) * (9/10))
          ∧ t.active = false)
  ∧ (0 < staleRowW.latestSignal.getD 0 → 0 < (9/10 : ℚ) →
      (9/10 : ℚ) < 1 →
      (staleRowW.latestSignal.getD 0) * (9/10)
        < staleRowW.latestSignal.getD 0) :=
  staleStage_decay_spec ⟨[staleRowW], []⟩ [staleRowW] [] (9/10) staleRowW
    (by simp) (by simp) (by simp)

/-- A stale trend row whose previous `latest_signal` is 0. -/
def staleRowZ : TrendRow :=
  ⟨1, none, none, true, some 0, some 3⟩

/-- C8: the claim asserts a STRICT decrease of `latest_signal` for every
stale trend and every factor in (0,1).  A stale trend whose previous
`latest_signal` is 0 is decayed to `0 * 9/10 = 0`, which is not strictly
less than the old value, refuting the universal strictness. -/
theorem staleStage_zero_signal_cex :
    (staleStage ⟨[staleRowZ], []⟩ [staleRowZ] [] (9/10)).trends
      = [⟨1, none, none, false, some 0, some 3⟩]
  ∧ staleRowZ.latestSignal = some 0
  ∧ ¬ ((0 : ℚ) * (9/10) < 0) := by
  refine ⟨?_, rfl, by norm_num⟩
  norm_num [staleStage, staleUpdates, applyStaleUpdates, applyStaleUpdate,
    staleRowZ]

lemma init_le_foldl_max (l : List TrendRow) (a : ℕ) :
    a ≤ l.foldl (fun m t => max m t.trendId) a := by
  induction l generalizing a with
  | nil => exact le_rfl
  | cons c rest ih => exact le_trans (le_max_left a c.trendId) (ih _)

lemma le_foldl_max (l : List TrendRow) (a : ℕ) (r : TrendRow) (hr : r ∈ l) :
    r.trendId ≤ l.foldl (fun m t => max m t.trendId) a := by
  induction l generalizing a with
  | nil => exact absurd hr (by simp)
  | cons c rest ih =>
    rcases List.mem_cons.mp hr with rfl | hrest
    · exact le_trans (le_max_right a r.trendId) (init_le_foldl_max rest _)
    · exact ih (max a c.trendId) hrest

lemma nextId_fresh (db : TrendDB) (r : TrendRow) (hr : r ∈ db.trends) :
    r.trendId ≠ nextId db := by
  have := le_foldl_max db.trends 0 r hr
  unfold nextId
  omega

lemma findTrend_mem (db : TrendDB) (i : ℕ) (r : TrendRow)
    (h : findTrend db i = some r) : r ∈ db.trends ∧ r.trendId = i := by
  refine ⟨List.mem_of_find?_eq_some h, ?_⟩
  have := List.find?_some h
  simpa using this

lemma find?_append_left_none {α : Type} (p : α → Bool) (l1 l2 : List α)
    (h : ∀ x ∈ l1, p x = false) :
    (l1 ++ l2).find? p = l2.find? p := by
  induction l1 with
  | nil => rfl
  | cons x xs ih =>
    rw [List.cons_append, List.find?_cons, h x (by simp)]
    exact ih (fun y hy => h y (List.mem_cons_of_mem _ hy))


lemma mergeTrendRowUpdate (a b : ℕ) (z : TrendRow) :
    ((fun r => if r.trendId = b then { r with active := false } else r)
      ((fun r => if r.trendId = a then { r with active := false } else r) z))
    = if z.trendId = a ∨ z.trendId = b then { z with active := false }
      else z := by
  dsimp only
  by_cases h1 : z.trendId = a
  · rw [if_pos h1, if_pos (Or.inl h1)]
    by_cases h2 : z.trendId = b
    · rw [if_pos (show ({ z with active := false } : TrendRow).trendId = b from h2)]
    · rw [if_neg (show ¬ ({ z with active := false } : TrendRow).trendId = b from h2)]
  · rw [if_neg h1]
    by_cases h2 : z.trendId = b
    · rw [if_pos h2, if_pos (Or.inr h2)]
    · rw [if_neg h2, if_neg (show ¬ (z.trendId = a ∨ z.trendId = b) from by
        rintro (h | h) <;> [exact h1 h; exact h2 h])]

lemma mergeMemberRowUpdate (a b N : ℕ) (hNb : N ≠ b) (z : MemberRow) :
    ((fun m => if m.trendId = b then { m with trendId := N } else m)
      ((fun m => if m.trendId = a then { m with trendId := N } else m) z))
    = if z.trendId = a ∨ z.trendId = b then { z with trendId := N }
      else z := by
  dsimp only
  by_cases h1 : z.trendId = a
  · rw [if_pos h1, if_pos (Or.inl h1)]
    rw [if_neg (show ¬ ({ z with trendId := N } : MemberRow).trendId = b from hNb)]
  · rw [if_neg h1]
    by_cases h2 : z.trendId = b
    · rw [if_pos h2, if_pos (Or.inr h2)]
    · rw [if_neg h2, if_neg (show ¬ (z.trendId = a ∨ z.trendId = b) from by
        rintro (h | h) <;> [exact h1 h; exact h2 h])]

lemma repoint_nodup (members : List MemberRow) (src dst : ℕ)
    (hU : (members.map memberKey).Nodup)
    (hcollide : ∀ m ∈ members, m.trendId = src → ∀ m' ∈ members,
      m'.trendId = dst → (m.objType, m.objId) ≠ (m'.objType, m'.objId)) :
    ((members.map (fun m =>
        if m.trendId = src then { m with trendId := dst } else m)).map
      memberKey).Nodup := by
  have hU' : members.Pairwise (fun x y => memberKey x ≠ memberKey y) := by
    rw [List.Nodup, List.pairwise_map] at hU
    exact hU
  rw [List.Nodup, List.pairwise_map, List.pairwise_map]
  refine List.Pairwise.imp_of_mem ?_ hU'
  intro x y hx hy hxy
  by_cases h1 : x.trendId = src <;> by_cases h2 : y.trendId = src
  · rw [if_pos h1, if_pos h2]
    intro hkey
    apply hxy
    simp only [memberKey, Prod.mk.injEq] at hkey ⊢
    exact ⟨h1.trans h2.symm, hkey.2.1, hkey.2.2⟩
  · rw [if_pos h1, if_neg h2]
    intro hkey
    simp only [memberKey, Prod.mk.injEq] at hkey
    exact hcollide x hx h1 y hy hkey.1.symm (by rw [hkey.2.1, hkey.2.2])
  · rw [if_neg h1, if_pos h2]
    intro hkey
    simp only [memberKey, Prod.mk.injEq] at hkey
    exact hcollide y hy h2 x hx hkey.1 (by rw [hkey.2.1, hkey.2.2])
  · rw [if_neg h1, if_neg h2]
    exact hxy

/-- C3 (amended): `_merge_themes` on two trends whose labels and
centroids are present and whose member-key sets are DISJOINT (when they
share a member key, the second re-point UPDATE violates the UNIQUE
`(trend_id, obj_type, obj_id)` key and the merge rolls back, see the
counterexample).  The merge completes: the new trend carries the
concatenated label, the mean centroid and `active = 1`; both sources end
inactive with zero direct membership rows (every member row re-pointed,
not copied, so the member row count is unchanged); and the new trend's
member-key set is exactly the union of the sources' prior member-key
sets. -/
theorem mergeThemes_spec (db : TrendDB) (a b : ℕ) (ra rb : TrendRow)
    (la lb : String) (ca cb : List ℚ)
    (ha : findTrend db a = some ra) (hb : findTrend db b = some rb)
    (hla : ra.label = some la) (hlb : rb.label = some lb)
    (hca : ra.centroid = some ca) (hcb : rb.centroid = some cb)
    (hfk : ∀ m ∈ db.members, ∃ t ∈ db.trends, m.trendId = t.trendId)
    (huniq : (db.members.map memberKey).Nodup)
    (hdisj : ∀ m ∈ db.members, ∀ m' ∈ db.members, m.trendId = a →
      m'.trendId = b → (m.objType, m.objId) ≠ (m'.objType, m'.objId)) :
    ∃ db' : TrendDB,
      mergeThemes db a b = some (db', nextId db)
      ∧ findTrend db' (nextId db)
          = some ⟨nextId db, some (la ++ " / " ++ lb),
              some (meanVec ca cb), true, none, none⟩
      ∧ (∀ r ∈ db'.trends, r.trendId = a → r.active = false)
      ∧ (∀ r ∈ db'.trends, r.trendId = b → r.active = false)
      ∧ db'.members.filter (fun m => m.trendId == a) = []
      ∧ db'.members.filter (fun m => m.trendId == b) = []
      ∧ db'.members.length = db.members.length
      ∧ (∀ k : String × String,
          (∃ m ∈ db'.members, m.trendId = nextId db ∧ (m.objType, m.objId) = k)
          ↔ (∃ m ∈ db.members, (m.trendId = a ∨ m.trendId = b)
              ∧ (m.objType, m.objId) = k)) := by
  obtain ⟨hraMem, hraId⟩ := findTrend_mem db a ra ha
  obtain ⟨hrbMem, hrbId⟩ := findTrend_mem db b rb hb
  have hanew : a ≠ nextId db := hraId ▸ nextId_fresh db ra hraMem
  have hbnew : b ≠ nextId db := hrbId ▸ nextId_fresh db rb hrbMem
  have hanew' : nextId db ≠ a := fun h => hanew h.symm
  have hbnew' : nextId db ≠ b := fun h => hbnew h.symm
  have hTmaps : ((db.trends ++ [TrendRow.mk (nextId db) (some (la ++ " / " ++ lb)) (some (meanVec ca cb)) true none none]).map (fun r => if r.trendId = a then { r with active := false } else r)).map (fun r => if r.trendId = b then { r with active := false } else r)
      = db.trends.map (fun z => if z.trendId = a ∨ z.trendId = b then { z with active := false } else z)
        ++ [TrendRow.mk (nextId db) (some (la ++ " / " ++ lb)) (some (meanVec ca cb)) true none none] := by
    rw [List.map_append, List.map_append, List.map_map]
    congr 1
    · exact List.map_congr_left (fun z _ => mergeTrendRowUpdate a b z)
    · simp [hanew', hbnew']
  have hMmaps : ((db.members.map (fun m => if m.trendId = a then { m with trendId := nextId db } else m)).map (fun m => if m.trendId = b then { m with trendId := nextId db } else m))
      = db.members.map (fun z => if z.trendId = a ∨ z.trendId = b then { z with trendId := nextId db } else z) := by
    rw [List.map_map]
    exact List.map_congr_left
      (fun z _ => mergeMemberRowUpdate a b (nextId db) hbnew' z)
  have hnd1 := repoint_nodup db.members a (nextId db) huniq
    (fun m hm hsrc m' hm' hdst => by
      exfalso
      obtain ⟨t, ht, heq⟩ := hfk m' hm'
      exact nextId_fresh db t ht (heq.symm.trans hdst))
  have hnd2 := repoint_nodup
    (db.members.map (fun m =>
      if m.trendId = a then { m with trendId := nextId db } else m))
    b (nextId db) hnd1
    (fun m hm hmb m' hm' hm'n => by
      rcases List.mem_map.mp hm with ⟨m0, hm0, rfl⟩
      rcases List.mem_map.mp hm' with ⟨m0', hm0', rfl⟩
      by_cases h0 : m0.trendId = a
      · rw [if_pos h0] at hmb
        exact absurd hmb hbnew'
      · rw [if_neg h0] at hmb ⊢
        by_cases h0' : m0'.trendId = a
        · rw [if_pos h0']
          exact (hdisj m0' hm0' m0 hm0 h0' hmb).symm
        · rw [if_neg h0'] at hm'n
          exfalso
          obtain ⟨t, ht, heq⟩ := hfk m0' hm0'
          exact nextId_fresh db t ht (heq.symm.trans hm'n))
  have h1 : repointMembers db.members a (nextId db)
      = some (db.members.map (fun m =>
          if m.trendId = a then { m with trendId := nextId db } else m)) := by
    simp only [repointMembers]
    rw [if_pos hnd1]
  have h2 : repointMembers
        (db.members.map (fun m =>
          if m.trendId = a then { m with trendId := nextId db } else m))
        b (nextId db)
      = some ((db.members.map (fun m =>
          if m.trendId = a then { m with trendId := nextId db } else m)).map
          (fun m => if m.trendId = b then { m with trendId := nextId db } else m)) := by
    simp only [repointMembers]
    rw [if_pos hnd2]
  refine ⟨TrendDB.mk (((db.trends ++ [TrendRow.mk (nextId db) (some (la ++ " / " ++ lb)) (some (meanVec ca cb)) true none none]).map (fun r => if r.trendId = a then { r with active := false } else r)).map (fun r => if r.trendId = b then { r with active := false } else r)) ((db.members.map (fun m => if m.trendId = a then { m with trendId := nextId db } else m)).map (fun m => if m.trendId = b then { m with trendId := nextId db } else m)), ?_, ?_, ?_, ?_, ?_, ?_, ?_, ?_⟩
  · simp [mergeThemes, ha, hb, hla, hlb, hca, hcb, h1, h2, hanew', hbnew']
  · show List.find? _ _ = _
    rw [hTmaps, find?_append_left_none]
    · simp
    · intro x hx
      rcases List.mem_map.mp hx with ⟨z, hz, rfl⟩
      have hzid : z.trendId ≠ nextId db := nextId_fresh db z hz
      by_cases h : z.trendId = a ∨ z.trendId = b <;> simp [h, hzid]
  · intro r hr hidA
    rw [show (TrendDB.mk _ _).trends = _ from rfl, hTmaps] at hr
    rcases List.mem_append.mp hr with hr | hr
    · rcases List.mem_map.mp hr with ⟨z, hz, rfl⟩
      by_cases h : z.trendId = a ∨ z.trendId = b
      · simp [h]
      · rw [if_neg h] at hidA ⊢
        exact absurd (Or.inl hidA) h
    · rw [List.mem_singleton.mp hr] at hidA
      exact absurd hidA.symm hanew
  · intro r hr hidB
    rw [show (TrendDB.mk _ _).trends = _ from rfl, hTmaps] at hr
    rcases List.mem_append.mp hr with hr | hr
    · rcases List.mem_map.mp hr with ⟨z, hz, rfl⟩
      by_cases h : z.trendId = a ∨ z.trendId = b
      · simp [h]
      · rw [if_neg h] at hidB ⊢
        exact absurd (Or.inr hidB) h
    · rw [List.mem_singleton.mp hr] at hidB
      exact absurd hidB.symm hbnew
  · rw [show (TrendDB.mk _ _).members = _ from rfl, hMmaps,
      List.filter_eq_nil_iff]
    intro m hm
    rcases List.mem_map.mp hm with ⟨z, hz, rfl⟩
    by_cases h : z.trendId = a ∨ z.trendId = b
    · simp [h, hanew']
    · rcases not_or.mp h with ⟨h1, h2⟩
      simp [h1, h2]
  · rw [show (TrendDB.mk _ _).members = _ from rfl, hMmaps,
      List.filter_eq_nil_iff]
    intro m hm
    rcases List.mem_map.mp hm with ⟨z, hz, rfl⟩
    by_cases h : z.trendId = a ∨ z.trendId = b
    · simp [h, hbnew']
    · rcases not_or.mp h with ⟨h1, h2⟩
      simp [h1, h2]
  · rw [show (TrendDB.mk _ _).members = _ from rfl, hMmaps]
    simp
  · intro k
    rw [show (TrendDB.mk _ _).members = _ from rfl, hMmaps]
    constructor
    · rintro ⟨m, hm, hidN, hkey⟩
      rcases List.mem_map.mp hm with ⟨z, hz, rfl⟩
      by_cases h : z.trendId = a ∨ z.trendId = b
      · refine ⟨z, hz, h, ?_⟩
        rw [← hkey]
        simp [h]
      · rw [if_neg h] at hidN
        obtain ⟨t, ht, heq⟩ := hfk z hz
        exact absurd (heq ▸ hidN) (nextId_fresh db t ht)
    · rintro ⟨z, hz, hab, hkey⟩
      refine ⟨if z.trendId = a ∨ z.trendId = b
          then { z with trendId := nextId db } else z,
        List.mem_map_of_mem _ hz, ?_, ?_⟩
      · rw [if_pos hab]
      · rw [← hkey, if_pos hab]

/-- Concrete trend rows and members for the merge witness. -/
def trendA : TrendRow :=
  ⟨1, some "Ai", some [1, 0], true, some 5, some 2⟩

/-- Second trend of the merge witness. -/
def trendB : TrendRow :=
  ⟨2, some "Robotics", some [0, 1], true, some 3, some 1⟩

/-- A concrete store with two labelled trends and one member each. -/
def mergeDBW : TrendDB :=
  ⟨[trendA, trendB], [⟨1, "story", "s1", "d1", "d2"⟩, ⟨2, "story", "s2", "d1", "d2"⟩]⟩

/-- C3 witness: the merge theorem applied to the concrete store. -/
theorem mergeThemes_spec_witness :
    ∃ db' : TrendDB,
      mergeThemes mergeDBW 1 2 = some (db', nextId mergeDBW)
      ∧ findTrend db' (nextId mergeDBW)
          = some ⟨nextId mergeDBW, some ("Ai" ++ " / " ++ "Robotics"),
              some (meanVec [1, 0] [0, 1]), true, none, none⟩
      ∧ (∀ r ∈ db'.trends, r.trendId = 1 → r.active = false)
      ∧ (∀ r ∈ db'.trends, r.trendId = 2 → r.active = false)
      ∧ db'.members.filter (fun m => m.trendId == 1) = []
      ∧ db'.members.filter (fun m => m.trendId == 2) = []
      ∧ db'.members.length = mergeDBW.members.length
      ∧ (∀ k : String × String,
          (∃ m ∈ db'.members, m.trendId = nextId mergeDBW
              ∧ (m.objType, m.objId) = k)
          ↔ (∃ m ∈ mergeDBW.members, (m.trendId = 1 ∨ m.trendId = 2)
              ∧ (m.objType, m.objId) = k)) :=
  mergeThemes_spec mergeDBW 1 2 trendA trendB "Ai" "Robotics" [1, 0] [0, 1]
    rfl rfl rfl rfl rfl rfl
    (by
      intro m hm
      simp only [mergeDBW, List.mem_cons, List.not_mem_nil, or_false] at hm
      rcases hm with rfl | rfl
      · exact ⟨trendA, by simp [mergeDBW], rfl⟩
      · exact ⟨trendB, by simp [mergeDBW], rfl⟩)
    (by decide)
    (by
      intro m hm m' hm' hma hm'b
      simp only [mergeDBW, List.mem_cons, List.not_mem_nil, or_false] at hm hm'
      rcases hm with rfl | rfl <;> rcases hm' with rfl | rfl <;>
        simp_all)

/-- Two active labelled trends that share the member key
`(story, s1)`. -/
def overlapDB : TrendDB :=
  ⟨[⟨1, some "A", some [1, 0], true, some 5, some 2⟩,
    ⟨2, some "B", some [0, 1], true, some 3, some 1⟩],
   [⟨1, "story", "s1", "d1", "d2"⟩, ⟨2, "story", "s1", "d1", "d2"⟩]⟩

/-- C3 counterexample: the claim asserts the merge completes for every
pair of trends, but when the two sources share a member key the second
re-point UPDATE would duplicate `(new_trend_id, obj_type, obj_id)` in
`trend_cluster_members`, violating its UNIQUE key: SQLite raises
IntegrityError and the enclosing transaction rolls back, so no merge
happens.  Here both trends exist with labels and centroids present, the
stored member keys are distinct, yet trend 1 and trend 2 each hold the
member `(story, s1)` and the merge fails. -/
theorem mergeThemes_overlap_cex :
    (∃ m ∈ overlapDB.members, m.trendId = 1 ∧ (m.objType, m.objId) = ("story", "s1"))
    ∧ (∃ m ∈ overlapDB.members, m.trendId = 2 ∧ (m.objType, m.objId) = ("story", "s1"))
    ∧ (overlapDB.members.map memberKey).Nodup
    ∧ (findTrend overlapDB 1).isSome = true
    ∧ (findTrend overlapDB 2).isSome = true
    ∧ mergeThemes overlapDB 1 2 = none := by
  refine ⟨⟨⟨1, "story", "s1", "d1", "d2"⟩, by simp [overlapDB], rfl, rfl⟩,
    ⟨⟨2, "story", "s1", "d1", "d2"⟩, by simp [overlapDB], rfl, rfl⟩,
    by decide, by decide, by decide, by decide⟩

/-- The STOPWORDS set of `embed_index.py` (membership-only, so the list
order is immaterial). -/
def STOPWORDS : List String :=
 [
  "a", "about", "above", "after", "again", "against", "all", "also", "am",
  "an", "and", "any", "app", "are", "aren\x27t", "as", "asked", "at",
  "back", "bad", "based", "be", "because", "been", "before", "being",
  "below", "between", "both", "branch", "but", "by", "ca", "can\x27t",
  "cannot", "closed", "co", "code", "com", "commit", "could",
  "couldn\x27t", "data", "day", "de", "dev", "did", "didn\x27t", "do",
  "does", "doesn\x27t", "doing", "don\x27t", "down", "during", "each",
  "edu", "even", "few", "for", "fr", "from", "further", "get", "good",
  "gov", "great", "had", "hadn\x27t", "has", "hasn\x27t", "have",
  "haven\x27t", "having", "he", "he\x27d", "he\x27ll", "he\x27s", "her",
  "here", "here\x27s", "hers", "herself", "him", "himself", "his", "how",
  "how\x27s", "http", "https", "i", "i\x27d", "i\x27ll", "i\x27m",
  "i\x27ve", "if", "in", "into", "io", "is", "isn\x27t", "issue", "it",
  "it\x27s", "its", "itself", "just", "know", "let\x27s", "like", "make",
  "me", "merged", "mil", "month", "more", "most", "mustn\x27t", "my",
  "myself", "need", "net", "new", "no", "nor", "not", "of", "off", "on",
  "once", "one", "only", "open", "or", "org", "other", "ought", "our",
  "ours", "ourselves", "out", "over", "own", "people", "pull", "really",
  "release", "request", "said", "same", "say", "see", "shan\x27t", "she",
  "she\x27d", "she\x27ll", "she\x27s", "should", "shouldn\x27t", "since",
  "so", "some", "still", "such", "than", "that", "that\x27s", "the",
  "their", "theirs", "them", "themselves", "then", "there", "there\x27s",
  "these", "they", "they\x27d", "they\x27ll", "they\x27re", "they\x27ve",
  "thing", "things", "think", "this", "those", "through", "time", "to",
  "told", "too", "uk", "under", "until", "up", "update", "use", "using",
  "version", "very", "want", "was", "wasn\x27t", "way", "we", "we\x27d",
  "we\x27ll", "we\x27re", "we\x27ve", "week", "well", "were", "weren\x27t",
  "what", "what\x27s", "when", "when\x27s", "where", "where\x27s", "which",
  "while", "who", "who\x27s", "whom", "why", "why\x27s", "with",
  "won\x27t", "work", "would", "wouldn\x27t", "www", "year", "you",
  "you\x27d", "you\x27ll", "you\x27re", "you\x27ve", "your", "yours",
  "yourself", "yourselves"]

/-- A source content item as collected by `_collect_objects` (already
cleaned and concatenated text). -/
structure SourceObj where
  objType : String
  objId : String
  text : String
deriving DecidableEq

/-- The `(obj_type, obj_id)` key of a source item. -/
def SourceObj.key (o : SourceObj) : String × String :=
  (o.objType, o.objId)

/-- The store touched by the embedding builder: `embeddings`,
`embedding_meta` (content hashes keyed by `(obj_type, obj_id)`) and
`terms` (weights keyed by `(term, (obj_type, obj_id))`). -/
structure EmbedDB where
  embeddings : List ((String × String) × List ℚ)
  meta : List ((String × String) × String)
  terms : List ((String × (String × String)) × ℚ)
deriving DecidableEq

/-- First-match association lookup (a SQL select by unique key). -/
def lookupBy {κ β : Type} [DecidableEq κ] : List (κ × β) → κ → Option β
  | [], _ => none
  | e :: rest, k => if e.1 = k then some e.2 else lookupBy rest k

/-- `INSERT ... ON CONFLICT DO UPDATE`: replace the value in place when
the key exists, else append the row. -/
def upsertBy {κ β : Type} [DecidableEq κ] :
    List (κ × β) → κ × β → List (κ × β)
  | [], r => [r]
  | e :: rest, r => if e.1 = r.1 then r :: rest else e :: upsertBy rest r

/-- `_normalize(vec)` of `embed_index.py`. -/
def normalizeQ (v : List ℚ) : List ℚ :=
  let n := normQ v
  if n = 0 then v else v.map (· / n)

/-- A character matched by the token regex `[A-Za-z0-9_]`. -/
def isWordChar (c : Char) : Bool :=
  c.isAlphanum || c = '_'

/-- Maximal runs of word characters (the behaviour of
`re.findall(r"[A-Za-z0-9_]+", ...)`); `acc` holds the current run
reversed. -/
def splitRunsAux : List Char → List Char → List String
  | acc, [] => if acc.isEmpty then [] else [String.mk acc.reverse]
  | acc, c :: cs =>
    if isWordChar c then splitRunsAux (c :: acc) cs
    else if acc.isEmpty then splitRunsAux [] cs
    else String.mk acc.reverse :: splitRunsAux [] cs

/-- `re.findall(r"[A-Za-z0-9_]+", text.lower())`. -/
def tokenize (s : String) : List String :=
  splitRunsAux [] s.toLower.toList

/-- One `Counter` increment, insertion-ordered. -/
def bumpCount : List (String × ℕ) → String → List (String × ℕ)
  | [], t => [(t, 1)]
  | (a, n) :: rest, t =>
    if a = t then (a, n + 1) :: rest else (a, n) :: bumpCount rest t

/-- Comparator of `Counter.most_common`: stable descending by count. -/
def countGe (a b : String × ℕ) : Bool :=
  decide (b.2 ≤ a.2)

/-- `_extract_terms(text, top_k)` of `embed_index.py`. -/
def extractTerms (text : String) (topK : ℕ) : List (String × ℚ) :=
  let filtered := (tokenize text).filter
    (fun tok => !(STOPWORDS.contains tok) && decide (2 < tok.length))
  let counts := filtered.foldl (fun c tok => bumpCount c tok) []
  if counts = [] then []
  else
    let total : ℕ := counts.foldl (fun s e => s + e.2) 0
    ((stableSort countGe counts).take topK).map
      (fun e => (e.1, (e.2 : ℚ) / (total : ℚ)))

/-- The result dict of `build`. -/
structure BuildCounts where
  embeddings : ℕ
  terms : ℕ
  removed : ℕ
deriving DecidableEq

/-- The items of `build` whose stored hash differs from the current
content hash (including items never embedded): only these are
re-embedded. -/
def buildTargets (hashText : String → String) (db : EmbedDB)
    (objects : List SourceObj) : List SourceObj :=
  objects.filter (fun o => !(lookupBy db.meta o.key == some (hashText o.text)))

/-- The keys of `embedding_meta` whose items no longer exist in the
source. -/
def buildRemovedKeys (db : EmbedDB) (objects : List SourceObj) :
    List (String × String) :=
  (db.meta.map (fun e => e.1)).filter
    (fun k => !((objects.map SourceObj.key).contains k))

/-- The coordinated delete of obsolete embeddings, hashes and term
weights. -/
def applyRemoval (db : EmbedDB) (removedKeys : List (String × String)) :
    EmbedDB :=
  ⟨db.embeddings.filter (fun e => !(removedKeys.contains e.1)),
   db.meta.filter (fun e => !(removedKeys.contains e.1)),
   db.terms.filter (fun t => !(removedKeys.contains t.1.2))⟩

/-- The term rows produced for the re-embedded items. -/
def buildTermRows (targets : List SourceObj) :
    List ((String × (String × String)) × ℚ) :=
  targets.flatMap (fun o =>
    (extractTerms o.text 12).map (fun tw => ((tw.1, o.key), tw.2)))

/-- The bulk writes of `build`: upsert embeddings and hashes for every
target; when any term rows exist, delete the targets' old term rows and
upsert the new ones. -/
def applyWrites (hashText : String → String) (encode : String → List ℚ)
    (db1 : EmbedDB) (targets : List SourceObj) : EmbedDB :=
  let embeddingRows := targets.map (fun o => (o.key, normalizeQ (encode o.text)))
  let metaRows := targets.map (fun o => (o.key, hashText o.text))
  let termRows := buildTermRows targets
  ⟨embeddingRows.foldl upsertBy db1.embeddings,
   metaRows.foldl upsertBy db1.meta,
   if termRows = [] then db1.terms
   else termRows.foldl upsertBy
     (db1.terms.filter (fun t => !((targets.map SourceObj.key).contains t.1.2)))⟩

/-- `build(conn, model_name)` of `embed_index.py`, over the collected
source objects.  `hashText` models `_hash_text` (SHA-1) and `encode` the
sentence-transformer model; `modelEnabled` is false for
`model_name in (None, "none")`, which clears all three tables and
returns `None`. -/
def build (hashText : String → String) (encode : String → List ℚ)
    (modelEnabled : Bool) (db : EmbedDB) (objects : List SourceObj) :
    Option BuildCounts × EmbedDB :=
  if !modelEnabled then
    (none, ⟨[], [], []⟩)
  else if objects = [] then
    (some ⟨0, 0, 0⟩, db)
  else
    let targets := buildTargets hashText db objects
    let removedKeys := buildRemovedKeys db objects
    let db1 := applyRemoval db removedKeys
    if targets = [] then
      (some ⟨0, 0, removedKeys.length⟩, db1)
    else
      (some ⟨targets.length, (buildTermRows targets).length, removedKeys.length⟩,
        applyWrites hashText encode db1 targets)

/-- C9: with embedding enabled and a source yielding no items, `build`
returns counts `{embeddings: 0, terms: 0, removed: 0}` and leaves the
whole store untouched — the early return skips removal detection, so rows
of items that no longer exist in the source are NOT purged. -/
theorem build_empty_source_frame (hashText : String → String)
    (encode : String → List ℚ) (db : EmbedDB) :
    build hashText encode true db [] = (some ⟨0, 0, 0⟩, db) :=
  rfl

lemma lookupBy_upsert_self {κ β : Type} [DecidableEq κ]
    (l : List (κ × β)) (k : κ) (v : β) :
    lookupBy (upsertBy l (k, v)) k = some v := by
  induction l with
  | nil => simp [upsertBy, lookupBy]
  | cons e rest ih =>
    by_cases h : e.1 = k
    · simp [upsertBy, h, lookupBy]
    · rw [upsertBy, if_neg h, lookupBy, if_neg h]
      exact ih

lemma lookupBy_upsert_other {κ β : Type} [DecidableEq κ]
    (l : List (κ × β)) (k k' : κ) (v : β) (hne : k' ≠ k) :
    lookupBy (upsertBy l (k, v)) k' = lookupBy l k' := by
  induction l with
  | nil => simp [upsertBy, lookupBy, Ne.symm hne]
  | cons e rest ih =>
    by_cases h : e.1 = k
    · rw [upsertBy, if_pos h, lookupBy,
        if_neg (fun hh : k = k' => hne hh.symm), lookupBy]
      by_cases hek : e.1 = k'
      · exact absurd ((h.symm.trans hek).symm) hne
      · rw [if_neg hek]
    · rw [upsertBy, if_neg h, lookupBy, lookupBy]
      by_cases hek : e.1 = k'
      · rw [if_pos hek, if_pos hek]
      · rw [if_neg hek, if_neg hek]
        exact ih

lemma lookupBy_foldl_upsert_notmem {κ β : Type} [DecidableEq κ]
    (rows : List (κ × β)) (base : List (κ × β)) (k : κ)
    (hk : k ∉ rows.map (fun r => r.1)) :
    lookupBy (rows.foldl upsertBy base) k = lookupBy base k := by
  induction rows generalizing base with
  | nil => rfl
  | cons r rest ih =>
    rw [List.foldl_cons]
    rw [ih _ (fun h => hk (by simp [h]) : k ∉ rest.map (fun r => r.1))]
    exact lookupBy_upsert_other base r.1 k r.2 (fun h => hk (by simp [h]))

lemma lookupBy_foldl_upsert_mem {κ β : Type} [DecidableEq κ]
    (rows : List (κ × β)) (base : List (κ × β)) (k : κ)
    (v : β) (hkv : (k, v) ∈ rows) (hnd : (rows.map (fun r => r.1)).Nodup) :
    lookupBy (rows.foldl upsertBy base) k = some v := by
  induction rows generalizing base with
  | nil => exact absurd hkv (by simp)
  | cons r rest ih =>
    rw [List.map_cons, List.nodup_cons] at hnd
    rcases List.mem_cons.mp hkv with rfl | hmem
    · rw [List.foldl_cons]
      rw [lookupBy_foldl_upsert_notmem rest _ k hnd.1]
      exact lookupBy_upsert_self base k v
    · rw [List.foldl_cons]
      exact ih (upsertBy base r) hmem hnd.2

lemma keys_upsert_sub {κ β : Type} [DecidableEq κ] (l : List (κ × β))
    (r : κ × β) (k : κ) (hk : k ∈ (upsertBy l r).map (fun e => e.1)) :
    k ∈ l.map (fun e => e.1) ∨ k = r.1 := by
  induction l with
  | nil => simpa [upsertBy] using hk
  | cons e rest ih =>
    by_cases h : e.1 = r.1
    · rw [upsertBy, if_pos h, List.map_cons] at hk
      rcases List.mem_cons.mp hk with hk1 | hk2
      · exact Or.inr hk1
      · exact Or.inl (by rw [List.map_cons]; exact List.mem_cons_of_mem _ hk2)
    · rw [upsertBy, if_neg h, List.map_cons] at hk
      rcases List.mem_cons.mp hk with hk1 | hk2
      · exact Or.inl (by rw [List.map_cons, hk1]; exact List.mem_cons_self _ _)
      · rcases ih hk2 with h1 | h2
        · exact Or.inl (by rw [List.map_cons]; exact List.mem_cons_of_mem _ h1)
        · exact Or.inr h2

lemma keys_foldl_upsert_sub {κ β : Type} [DecidableEq κ]
    (rows : List (κ × β)) (base : List (κ × β)) (k : κ)
    (hk : k ∈ (rows.foldl upsertBy base).map (fun e => e.1)) :
    k ∈ base.map (fun e => e.1) ∨ k ∈ rows.map (fun r => r.1) := by
  induction rows generalizing base with
  | nil => exact Or.inl hk
  | cons r rest ih =>
    rw [List.foldl_cons] at hk
    rcases ih _ hk with h1 | h2
    · rcases keys_upsert_sub base r k h1 with h3 | h4
      · exact Or.inl h3
      · exact Or.inr (by rw [List.map_cons, h4]; exact List.mem_cons_self _ _)
    · exact Or.inr (by rw [List.map_cons]; exact List.mem_cons_of_mem _ h2)

lemma lookupBy_filter_keep {κ β : Type} [DecidableEq κ] (l : List (κ × β))
    (k : κ) (p : κ → Bool) (hp : p k = true) :
    lookupBy (l.filter (fun e => p e.1)) k = lookupBy l k := by
  induction l with
  | nil => rfl
  | cons e rest ih =>
    by_cases hek : e.1 = k
    · rw [List.filter_cons, if_pos (by rw [hek, hp]), lookupBy,
        if_pos hek, lookupBy, if_pos hek]
    · cases hpe : p e.1 with
      | true =>
        rw [List.filter_cons, if_pos (by rw [hpe]), lookupBy,
          if_neg hek, lookupBy, if_neg hek]
        exact ih
      | false =>
        rw [List.filter_cons, if_neg (by rw [hpe]; exact fun h => by cases h),
          lookupBy, if_neg hek]
        exact ih

lemma applyRemoval_nil (db : EmbedDB) : applyRemoval db [] = db := by
  cases db with
  | mk e m t =>
    rw [applyRemoval]
    congr 1 <;> exact List.filter_eq_self.mpr (fun a _ => rfl)

lemma build_nonempty_eq (hashText : String → String)
    (encode : String → List ℚ) (db : EmbedDB) (objects : List SourceObj)
    (hobj : objects ≠ []) :
    build hashText encode true db objects
      = (if buildTargets hashText db objects = []
         then (some ⟨0, 0, (buildRemovedKeys db objects).length⟩,
               applyRemoval db (buildRemovedKeys db objects))
         else (some ⟨(buildTargets hashText db objects).length,
                     (buildTermRows (buildTargets hashText db objects)).length,
                     (buildRemovedKeys db objects).length⟩,
               applyWrites hashText encode
                 (applyRemoval db (buildRemovedKeys db objects))
                 (buildTargets hashText db objects))) := by
  simp only [build, Bool.not_true, Bool.false_eq_true, if_false, if_neg hobj]

lemma mem_key_not_removed (db : EmbedDB) (objects : List SourceObj)
    (o : SourceObj) (ho : o ∈ objects) :
    o.key ∉ buildRemovedKeys db objects := by
  intro hmem
  rcases List.mem_filter.mp hmem with ⟨-, hpred⟩
  have : o.key ∈ objects.map SourceObj.key := List.mem_map_of_mem _ ho
  simp [this] at hpred

lemma meta_filter_key_mem (db : EmbedDB) (objects : List SourceObj)
    (k : String × String)
    (hk : k ∈ (db.meta.filter
        (fun e => !((buildRemovedKeys db objects).contains e.1))).map
        (fun e => e.1)) :
    k ∈ objects.map SourceObj.key := by
  rcases List.mem_map.mp hk with ⟨e, he, rfl⟩
  rcases List.mem_filter.mp he with ⟨hmeta, hpred⟩
  by_contra hnot
  have hinrem : e.1 ∈ buildRemovedKeys db objects := by
    rw [buildRemovedKeys, List.mem_filter]
    exact ⟨List.mem_map_of_mem _ hmeta, by simp [hnot]⟩
  simp [hinrem] at hpred

/-- C6: re-running the embedding builder over a source whose content is
unchanged is a no-op.  After any run, running `build` again over the same
objects hits the hash cache for every item (no item is re-embedded), makes
zero writes (the store is returned unchanged) and reports
`{embeddings: 0, terms: 0, removed: 0}`. -/
theorem build_second_run_idempotent (hashText : String → String)
    (encode : String → List ℚ) (db : EmbedDB) (objects : List SourceObj)
    (hnd : (objects.map SourceObj.key).Nodup) :
    build hashText encode true
        (build hashText encode true db objects).2 objects
      = (some ⟨0, 0, 0⟩, (build hashText encode true db objects).2) := by
  by_cases hobj : objects = []
  · subst hobj
    rfl
  · have hb1 := build_nonempty_eq hashText encode db objects hobj
    have hA : ∀ o ∈ objects,
        lookupBy (build hashText encode true db objects).2.meta o.key
          = some (hashText o.text) := by
      intro o ho
      rw [hb1]
      by_cases hT : buildTargets hashText db objects = []
      · rw [if_pos hT]
        have hnottarget := List.filter_eq_nil_iff.mp hT o ho
        have hbeq : (lookupBy db.meta o.key == some (hashText o.text)) = true := by
          by_contra hne
          rw [Bool.not_eq_true] at hne
          exact hnottarget (by simp [hne])
        have heq : lookupBy db.meta o.key = some (hashText o.text) :=
          eq_of_beq hbeq
        show lookupBy (db.meta.filter _) o.key = _
        rw [lookupBy_filter_keep db.meta o.key
          (fun k => !((buildRemovedKeys db objects).contains k))
          (by simp [mem_key_not_removed db objects o ho])]
        exact heq
      · rw [if_neg hT]
        simp only [applyWrites]
        by_cases hot : o ∈ buildTargets hashText db objects
        · refine lookupBy_foldl_upsert_mem _ _ _ _ ?_ ?_
          · exact List.mem_map_of_mem (fun o => (o.key, hashText o.text)) hot
          · rw [List.map_map]
            have hsub : List.Sublist
                ((buildTargets hashText db objects).map SourceObj.key)
                (objects.map SourceObj.key) :=
              (List.filter_sublist objects).map SourceObj.key
            exact (hnd.sublist hsub)
        · have hknot : o.key ∉ ((buildTargets hashText db objects).map
              (fun o => (o.key, hashText o.text))).map (fun r => r.1) := by
            intro hkin
            rw [List.map_map] at hkin
            rcases List.mem_map.mp hkin with ⟨t, ht, hts⟩
            have htobj : t ∈ objects := List.mem_of_mem_filter ht
            have : t = o := List.inj_on_of_nodup_map hnd htobj ho hts
            exact hot (this ▸ ht)
          rw [lookupBy_foldl_upsert_notmem _ _ _ hknot]
          have hnottarget : ¬ ((fun o =>
              !(lookupBy db.meta o.key == some (hashText o.text))) o = true) := by
            intro hpred
            exact hot (List.mem_filter.mpr ⟨ho, hpred⟩)
          have hbeq : (lookupBy db.meta o.key == some (hashText o.text)) = true := by
            by_contra hne
            rw [Bool.not_eq_true] at hne
            exact hnottarget (by simp [hne])
          show lookupBy (db.meta.filter _) o.key = _
          rw [lookupBy_filter_keep db.meta o.key
            (fun k => !((buildRemovedKeys db objects).contains k))
            (by simp [mem_key_not_removed db objects o ho])]
          exact eq_of_beq hbeq
    have hB : ∀ k, k ∈ (build hashText encode true db objects).2.meta.map
        (fun e => e.1) → k ∈ objects.map SourceObj.key := by
      intro k hk
      rw [hb1] at hk
      by_cases hT : buildTargets hashText db objects = []
      · rw [if_pos hT] at hk
        exact meta_filter_key_mem db objects k hk
      · rw [if_neg hT] at hk
        rcases keys_foldl_upsert_sub _ _ _ hk with h1 | h2
        · exact meta_filter_key_mem db objects k h1
        · rw [List.map_map] at h2
          rcases List.mem_map.mp h2 with ⟨t, ht, hts⟩
          exact hts ▸ List.mem_map_of_mem SourceObj.key
            (List.mem_of_mem_filter ht)
    have hT2 : buildTargets hashText
        (build hashText encode true db objects).2 objects = [] := by
      rw [buildTargets, List.filter_eq_nil_iff]
      intro o ho
      rw [hA o ho]
      simp
    have hR2 : buildRemovedKeys
        (build hashText encode true db objects).2 objects = [] := by
      rw [buildRemovedKeys, List.filter_eq_nil_iff]
      intro k hk
      simp [hB k hk]
    rw [build_nonempty_eq hashText encode
      (build hashText encode true db objects).2 objects hobj,
      if_pos hT2, hR2, applyRemoval_nil]
    rfl

/-- C6 witness: the idempotence theorem applied to a concrete empty store,
a one-item source, the identity as content hash and a constant embedding
function. -/
theorem build_second_run_idempotent_witness :
    build (fun s => s) (fun _ => [1]) true
        (build (fun s => s) (fun _ => [1]) true ⟨[], [], []⟩
          [⟨"story", "1", "lean verification"⟩]).2
        [⟨"story", "1", "lean verification"⟩]
      = (some ⟨0, 0, 0⟩,
        (build (fun s => s) (fun _ => [1]) true ⟨[], [], []⟩
          [⟨"story", "1", "lean verification"⟩]).2) :=
  build_second_run_idempotent (fun s => s) (fun _ => [1]) ⟨[], [], []⟩
    [⟨"story", "1", "lean verification"⟩] (by simp)

/-- A row of the `stories` table (the columns `_calculate_term_surges`
reads); `score` is NULLable (`COALESCE(s.score, 0)`). -/
structure Story where
  id : ℤ
  time : ℤ
  score : Option ℚ
deriving DecidableEq

/-- A row of the `terms` table. -/
structure TermRow where
  term : String
  objType : String
  objId : String
  weight : ℚ
deriving DecidableEq

/-- A row of the `term_surge_snapshots` table. -/
structure SurgeSnapshotRow where
  runId : ℕ
  term : String
  currentScore : ℚ
  baselineScore : ℚ
  surgeRatio : ℚ
  surgeDelta : ℚ
  createdAt : String
deriving DecidableEq

/-- The store touched by the term-surge stage. -/
structure SurgeDB where
  terms : List TermRow
  stories : List Story
  snapshots : List SurgeSnapshotRow
deriving DecidableEq

/-- The joined rows of the surge queries: terms joined to stories on
`t.obj_type = 'story' AND t.obj_id = CAST(s.id AS TEXT)` restricted to a
time window, each contributing `t.weight * (COALESCE(s.score, 0) + 1)`. -/
def storyTermScoreRows (terms : List TermRow) (stories : List Story)
    (inWindow : Story → Bool) : List (String × ℚ) :=
  terms.flatMap (fun t =>
    (stories.filter (fun s =>
        t.objType == "story" && t.objId == toString s.id && inWindow s)).map
      (fun s => (t.term, t.weight * ((s.score.getD 0) + 1))))

/-- `SUM(...) GROUP BY t.term`, with groups in first-occurrence order
(SQL leaves the group order unspecified; no verified claim depends on
it). -/
def groupScores (rows : List (String × ℚ)) : List (String × ℚ) :=
  rows.foldl (fun acc r => bumpTerm acc r.1 r.2) []

/-- The `current` dict of `_calculate_term_surges`: aggregated scores of
stories with `s.time >= since_unix`, zero scores dropped (Python
truthiness of the row score). -/
def currentScores (db : SurgeDB) (sinceUnix : ℤ) : List (String × ℚ) :=
  (groupScores (storyTermScoreRows db.terms db.stories
    (fun s => decide (sinceUnix ≤ s.time)))).filter (fun p => !(p.2 == 0))

/-- The `previous` dict: the immediately preceding window
`previous_start <= s.time < since_unix` with
`previous_start = max(0, since_unix - window_days*86400)`. -/
def previousScores (db : SurgeDB) (sinceUnix : ℤ) (windowDays : ℤ) :
    List (String × ℚ) :=
  (groupScores (storyTermScoreRows db.terms db.stories
    (fun s => decide (max 0 (sinceUnix - windowDays * 86400) ≤ s.time)
      && decide (s.time < sinceUnix)))).filter (fun p => !(p.2 == 0))

/-- One surge candidate `(term, score, baseline, ratio, delta)`. -/
structure SurgeEntry where
  term : String
  currentScore : ℚ
  baselineScore : ℚ
  ratio : ℚ
  delta : ℚ
deriving DecidableEq

/-- The candidate loop of `_calculate_term_surges`: terms with
`current_score >= 1.0`, `ratio = score / (baseline + 1)`,
`delta = score - baseline`, `baseline = previous.get(term, 0.0)`. -/
def surgeCandidates (current previous : List (String × ℚ)) :
    List SurgeEntry :=
  (current.filter (fun p => !(decide (p.2 < 1)))).map (fun p =>
    let baseline := (lookupBy previous p.1).getD 0
    ⟨p.1, p.2, baseline, p.2 / (baseline + 1), p.2 - baseline⟩)

/-- Comparator of `surges.sort(key=entry[3], reverse=True)`: stable
descending by surge ratio. -/
def ratioGe (a b : SurgeEntry) : Bool :=
  decide (b.ratio ≤ a.ratio)

/-- The top-20 cut after the stable descending sort by ratio. -/
def topSurges (surges : List SurgeEntry) : List SurgeEntry :=
  (stableSort ratioGe surges).take 20

/-- `_calculate_term_surges(conn, run_id, since_unix, window_days)` with
`use_llm=False` (the pipeline default): the run's prior snapshot rows are
deleted and the top surges inserted. -/
def calculateTermSurges (db : SurgeDB) (runId : ℕ) (sinceUnix : ℤ)
    (windowDays : ℤ) (nowIso : String) : SurgeDB :=
  let current := currentScores db sinceUnix
  if current = [] then
    { db with snapshots := db.snapshots.filter (fun r => !(r.runId == runId)) }
  else
    let top := topSurges (surgeCandidates current
      (previousScores db sinceUnix windowDays))
    { db with snapshots :=
        db.snapshots.filter (fun r => !(r.runId == runId))
        ++ top.map (fun e =>
          ⟨runId, e.term, e.currentScore, e.baselineScore, e.ratio,
            e.delta, nowIso⟩) }

lemma ratioGe_trans (a b c : SurgeEntry) (hab : ratioGe a b = true)
    (hbc : ratioGe b c = true) : ratioGe a c = true :=
  decide_eq_true (le_trans (of_decide_eq_true hbc) (of_decide_eq_true hab))

lemma ratioGe_total (a b : SurgeEntry) :
    ratioGe a b = true ∨ ratioGe b a = true := by
  rcases le_total a.ratio b.ratio with h | h
  · exact Or.inr (decide_eq_true h)
  · exact Or.inl (decide_eq_true h)

lemma filter_self_idem {α : Type} (p : α → Bool) (l : List α) :
    (l.filter p).filter p = l.filter p :=
  List.filter_eq_self.mpr (fun a ha => (List.mem_filter.mp ha).2)

/-- The two branches of `_calculate_term_surges` written as one snapshot
replacement (in the empty-current branch the inserted row list is
empty). -/
lemma calculateTermSurges_snapshots_only (db : SurgeDB) (runId : ℕ)
    (sinceUnix windowDays : ℤ) (nowIso : String) :
    calculateTermSurges db runId sinceUnix windowDays nowIso
      = { db with snapshots :=
          db.snapshots.filter (fun r => !(r.runId == runId))
          ++ (topSurges (surgeCandidates (currentScores db sinceUnix)
              (previousScores db sinceUnix windowDays))).map (fun e =>
                ⟨runId, e.term, e.currentScore, e.baselineScore, e.ratio,
                  e.delta, nowIso⟩) } := by
  by_cases hcur : currentScores db sinceUnix = []
  · rw [calculateTermSurges]
    simp [hcur, surgeCandidates, topSurges, stableSort]
  · rw [calculateTermSurges]
    rw [if_neg hcur]

/-- C7: the term-surge stage.  Every candidate whose current-window score
is at least 1 is recorded with `surge_ratio = current / (baseline + 1)`
and `surge_delta = current - baseline`; the kept rows are the first 20 of
the stable descending sort by ratio; the run's snapshot set fully replaces
any prior rows of the same `run_id`; and re-running the stage for the same
`run_id` is idempotent. -/
theorem calculateTermSurges_spec (db : SurgeDB) (runId : ℕ)
    (sinceUnix windowDays : ℤ) (nowIso : String) :
    let current := currentScores db sinceUnix
    let surges := surgeCandidates current
      (previousScores db sinceUnix windowDays)
    (∀ e ∈ surges,
        e.ratio = e.currentScore / (e.baselineScore + 1)
        ∧ e.delta = e.currentScore - e.baselineScore
        ∧ 1 ≤ e.currentScore)
  ∧ (∀ p ∈ current, 1 ≤ p.2 →
        ∃ e ∈ surges, e.term = p.1 ∧ e.currentScore = p.2)
  ∧ (stableSort ratioGe surges).Perm surges
  ∧ (stableSort ratioGe surges).Pairwise (fun a b => b.ratio ≤ a.ratio)
  ∧ topSurges surges = (stableSort ratioGe surges).take 20
  ∧ (calculateTermSurges db runId sinceUnix windowDays nowIso).snapshots
      = db.snapshots.filter (fun r => !(r.runId == runId))
        ++ (topSurges surges).map (fun e =>
            ⟨runId, e.term, e.currentScore, e.baselineScore, e.ratio,
              e.delta, nowIso⟩)
  ∧ calculateTermSurges
        (calculateTermSurges db runId sinceUnix windowDays nowIso)
        runId sinceUnix windowDays nowIso
      = calculateTermSurges db runId sinceUnix windowDays nowIso := by
  intro current surges
  refine ⟨?_, ?_, stableSort_perm ratioGe surges,
    (stableSort_pairwise ratioGe ratioGe_trans ratioGe_total surges).imp
      (fun h => of_decide_eq_true h),
    rfl, ?_, ?_⟩
  · intro e he
    rcases List.mem_map.mp he with ⟨p, hp, rfl⟩
    refine ⟨rfl, rfl, ?_⟩
    have := (List.mem_filter.mp hp).2
    have hnotlt : ¬ (p.2 < 1) := by
      intro hlt
      simp [hlt] at this
    exact not_lt.mp hnotlt
  · intro p hp h1
    refine ⟨⟨p.1, p.2, (lookupBy (previousScores db sinceUnix windowDays) p.1).getD 0,
        p.2 / ((lookupBy (previousScores db sinceUnix windowDays) p.1).getD 0 + 1),
        p.2 - (lookupBy (previousScores db sinceUnix windowDays) p.1).getD 0⟩,
      ?_, rfl, rfl⟩
    exact List.mem_map_of_mem _
      (List.mem_filter.mpr ⟨hp, by simp [not_lt.mpr, h1]⟩)
  · rw [calculateTermSurges_snapshots_only]
  · rw [calculateTermSurges_snapshots_only db runId sinceUnix windowDays nowIso,
      calculateTermSurges_snapshots_only]
    congr 1
    rw [List.filter_append, filter_self_idem]
    have hrows : (List.filter (fun r => !(r.runId == runId))
        ((topSurges (surgeCandidates (currentScores db sinceUnix)
            (previousScores db sinceUnix windowDays))).map (fun e =>
          (⟨runId, e.term, e.currentScore, e.baselineScore, e.ratio,
            e.delta, nowIso⟩ : SurgeSnapshotRow)))) = [] := by
      rw [List.filter_eq_nil_iff]
      intro r hr
      rcases List.mem_map.mp hr with ⟨e, he, rfl⟩
      simp
    rw [hrows, List.append_nil]
    rfl
